import Mathlib

/-!
# Verification of the risk-attribution / optimization engine

Shallow embedding of `api-service/risk_engine.py` and
`api-service/optimization_engine.py` over exact real arithmetic.

Modelling conventions:
* A pandas `DataFrame` of return series (dates x assets) is a function
  `Fin m → n → ℝ` (row `t`, column `i`), with `n` a `Fintype` of asset names.
* A pandas `Series` of weights is a function `n → ℝ`.  The index-alignment
  steps of the Python code (`reindex` / `union` / `intersection` / `fillna(0)`)
  are modelled by taking all inputs over the same (already aligned) column
  type `n`; the numeric content of every function is translated line by line.
* Missing values (NaN) are not modelled; all claims quantify over total data.
* Python float division by zero yields `inf`/`nan`; in the embedding `x / 0 = 0`.
  Every theorem that relies on a division carries a hypothesis putting it in
  the well-defined regime.
* `np.linalg.eigh` on the (always symmetric) input is modelled by Mathlib's
  spectral decomposition (`Matrix.IsHermitian.eigenvectorUnitary` /
  `eigenvalues`); the exception behaviour of the call is modelled separately
  with the decomposition routine as an explicit oracle (`ensure_psdExc`).
-/

namespace RiskEngine

noncomputable section

open Matrix BigOperators Finset

variable {n : Type*}

/-- Column mean of a returns table: `returns.mean()` for column `i`
(pandas mean over all `m` rows; no NaN in the model). -/
def colMean (m : ℕ) (X : Fin m → n → ℝ) (i : n) : ℝ :=
  (∑ t, X t i) / m

/-- Mean-centered returns: `returns - returns.mean()`
(risk_engine.py line 412 / 96). -/
def centered (m : ℕ) (X : Fin m → n → ℝ) (t : Fin m) (i : n) : ℝ :=
  X t i - colMean m X i

/-- Sample covariance `returns.cov()` (pandas, `ddof = 1`):
`cov[i,j] = Σ_t (X[t,i] - mean i) * (X[t,j] - mean j) / (m - 1)`. -/
def sampleCov (m : ℕ) (X : Fin m → n → ℝ) : Matrix n n ℝ :=
  Matrix.of fun i j => (∑ t, centered m X t i * centered m X t j) / ((m : ℝ) - 1)

/-- Normalized EWMA weight of row `t` (0 = oldest):
`weights = [(1-decay)*decay**i for i in range(n_obs)]`, reversed so the most
recent row gets the largest weight, then divided by the total
(risk_engine.py lines 407-409). -/
def ewmaWeight (decay : ℝ) (m : ℕ) (t : Fin m) : ℝ :=
  ((1 - decay) * decay ^ (m - 1 - (t : ℕ))) /
    (∑ s : Fin m, (1 - decay) * decay ^ (m - 1 - (s : ℕ)))

/-- Model of `weighted_returns = centered.multiply(np.sqrt(weights), axis=0)`
(risk_engine.py line 415). -/
def weightedReturns (decay : ℝ) (m : ℕ) (X : Fin m → n → ℝ) (t : Fin m) (i : n) : ℝ :=
  Real.sqrt (ewmaWeight decay m t) * centered m X t i

/-- The EWMA covariance body `weighted_returns.T @ weighted_returns`
(risk_engine.py line 416). -/
def ewmaCovBody (decay : ℝ) (m : ℕ) (X : Fin m → n → ℝ) : Matrix n n ℝ :=
  Matrix.of fun i j => ∑ t, weightedReturns decay m X t i * weightedReturns decay m X t j

/-- Model of `calculate_ewma_covariance(returns, decay=0.94, min_periods=12)`
(risk_engine.py lines 386-418): falls back to the simple sample covariance
when fewer than `min_periods` observations are available. -/
def calculate_ewma_covariance (m : ℕ) (X : Fin m → n → ℝ)
    (decay : ℝ) (min_periods : ℕ) : Matrix n n ℝ :=
  if m < min_periods then sampleCov m X else ewmaCovBody decay m X

/-- Shrinkage target selector of `ewma_shrinkage_cov`: `"diagonal"` keeps the
EWMA variances on the diagonal, anything else (`"identity"`) is the identity
scaled by the average EWMA variance (risk_engine.py lines 100-115). -/
def shrinkTargetMatrix [Fintype n] [DecidableEq n] (target : String) (ewma : Matrix n n ℝ) : Matrix n n ℝ :=
  if target = "diagonal" then
    Matrix.diagonal (fun i => ewma i i)
  else
    ((∑ i, ewma i i) / (Fintype.card n : ℝ)) • (1 : Matrix n n ℝ)

/-- Model of `ewma_shrinkage_cov(returns, lambda_=0.94, shrink_target="diagonal",
shrink_alpha=0.1)` (risk_engine.py lines 64-120).  With fewer than 12 rows it
returns `returns.cov()` before any EWMA/shrinkage computation; otherwise it
blends the EWMA covariance with the structured target. -/
def ewma_shrinkage_cov [Fintype n] [DecidableEq n] (m : ℕ) (X : Fin m → n → ℝ)
    (lambda_ : ℝ) (shrink_target : String) (shrink_alpha : ℝ) : Matrix n n ℝ :=
  if m < 12 then sampleCov m X
  else
    (1 - shrink_alpha) • ewmaCovBody lambda_ m X +
      shrink_alpha • shrinkTargetMatrix shrink_target (ewmaCovBody lambda_ m X)

/-- Model of `ensure_psd(matrix, epsilon=1e-10)` (risk_engine.py lines 421-425 and the
identical copy at optimization_engine.py lines 194-198):
`np.linalg.eigh` followed by eigenvalue clipping `np.maximum(eigenvalues,
epsilon)` and reconstruction `eigenvectors @ np.diag(eigenvalues) @
eigenvectors.T`.  The decomposition of the (always symmetric in this code
base) input is modelled by Mathlib's spectral decomposition; for a
non-Hermitian input — unreachable from the engine — the input is returned. -/
def ensure_psd [Fintype n] [DecidableEq n] (A : Matrix n n ℝ) (ε : ℝ) : Matrix n n ℝ :=
  letI := Classical.propDecidable A.IsHermitian
  if hA : A.IsHermitian then
    (hA.eigenvectorUnitary : Matrix n n ℝ) *
      Matrix.diagonal (fun i => max (hA.eigenvalues i) ε) *
      (hA.eigenvectorUnitary : Matrix n n ℝ)ᵀ
  else A

/-- Unconditional weight normalization `weights / weights.sum()`
(risk_engine.py line 452; division by a zero sum is `0` in the model where
Python produces `inf`/`nan`). -/
def normalizeSum [Fintype n] (w : n → ℝ) : n → ℝ :=
  fun i => w i / ∑ j, w j

/-- Guarded weight normalization
`w / w.sum() if w.sum() > 0 else w` (risk_engine.py lines 155-156, 312). -/
def normalizePos [Fintype n] (w : n → ℝ) : n → ℝ :=
  if 0 < ∑ j, w j then (fun i => w i / ∑ j, w j) else w

/-- Result record of `calculate_contributions` (risk_engine.py lines 479-484). -/
structure ContribResult (n : Type*) where
  pctr : n → ℝ
  mctr : n → ℝ
  portfolio_vol : ℝ
  portfolio_vol_annualized : ℝ

/-- The covariance used by `calculate_contributions`: EWMA (default decay,
`min_periods = 12`) or simple sample covariance by flag, then PSD-repaired
(risk_engine.py lines 454-464). -/
def contribCov [Fintype n] [DecidableEq n] (m : ℕ) (X : Fin m → n → ℝ)
    (use_ewma : Bool) (ewma_decay : ℝ) : Matrix n n ℝ :=
  ensure_psd (if use_ewma then calculate_ewma_covariance m X ewma_decay 12
              else sampleCov m X) 1e-10

/-- The portfolio variance `w @ cov @ w` computed by `calculate_contributions`
on the normalized weights (risk_engine.py line 469). -/
def contribVar [Fintype n] [DecidableEq n] (m : ℕ) (X : Fin m → n → ℝ)
    (w₀ : n → ℝ) (use_ewma : Bool) (ewma_decay : ℝ) : ℝ :=
  normalizeSum w₀ ⬝ᵥ (contribCov m X use_ewma ewma_decay *ᵥ normalizeSum w₀)

/-- Model of `calculate_contributions(returns, weights, use_ewma=True, ewma_decay=0.94)`
(risk_engine.py lines 428-484): normalize weights, build the PSD-repaired
covariance, compute portfolio volatility, marginal contributions
`cov @ w / vol` (zero when volatility is zero), percentage contributions
`w * mctr` renormalized to sum 1 when their sum is nonzero. -/
def calculate_contributions [Fintype n] [DecidableEq n] (m : ℕ) (X : Fin m → n → ℝ)
    (w₀ : n → ℝ) (use_ewma : Bool) (ewma_decay : ℝ) : ContribResult n :=
  let w := normalizeSum w₀
  let cov := contribCov m X use_ewma ewma_decay
  let portfolio_vol := Real.sqrt (contribVar m X w₀ use_ewma ewma_decay)
  let mctr := if 0 < portfolio_vol then (fun i => (cov *ᵥ w) i / portfolio_vol)
              else fun _ => 0
  let pctr0 := fun i => w i * mctr i
  let pctr := if (∑ i, pctr0 i) ≠ 0 then (fun i => pctr0 i / ∑ j, pctr0 j) else pctr0
  ⟨pctr, mctr, portfolio_vol, portfolio_vol * Real.sqrt 12⟩

/-- Result record of `compute_tracking_error` (risk_engine.py lines 649-653). -/
structure TEResult (n : Type*) where
  tracking_error : ℝ
  active_weights : n → ℝ
  te_contributions : n → ℝ

/-- Model of `compute_tracking_error(portfolio_weights, benchmark_weights, returns,
use_ewma=True)` (risk_engine.py lines 600-653).  Note: the raw weights are
used directly — unlike `calculate_pcte`, no normalization is applied before
forming active weights (lines 622-627). -/
def compute_tracking_error [Fintype n] [DecidableEq n] (m : ℕ) (X : Fin m → n → ℝ)
    (portfolio_weights benchmark_weights : n → ℝ) (use_ewma : Bool) : TEResult n :=
  let active_w := fun i => portfolio_weights i - benchmark_weights i
  let cov := ensure_psd (if use_ewma then calculate_ewma_covariance m X 0.94 12
                         else sampleCov m X) 1e-10
  let te_var := active_w ⬝ᵥ (cov *ᵥ active_w)
  let te := Real.sqrt te_var * Real.sqrt 12
  let te_contrib :=
    if 0 < te then
      (let mcte := fun i => (cov *ᵥ active_w) i / Real.sqrt te_var
       let c := fun i => active_w i * mcte i
       if (∑ i, c i) ≠ 0 then (fun i => c i / ∑ j, c j) else c)
    else fun _ => 0
  ⟨te, active_w, te_contrib⟩

/-- Result record of `calculate_pcte` (risk_engine.py lines 183-189). -/
structure PCTEResult (n : Type*) where
  tracking_error : ℝ
  tracking_error_monthly : ℝ
  pcte : n → ℝ
  mcte : n → ℝ
  active_weights : n → ℝ

/-- Model of `calculate_pcte(portfolio_weights, benchmark_weights, returns,
use_ewma=True, ewma_decay=0.94)` (risk_engine.py lines 123-189): both weight
vectors are normalized to sum 1 (when their sum is positive) before active
weights are formed; contributions are normalized by the sum of their absolute
values.  The Python `if te_vol > 0: ... else: zeros` block is rendered as one
guard per binding. -/
def calculate_pcte [Fintype n] [DecidableEq n] (m : ℕ) (X : Fin m → n → ℝ)
    (portfolio_weights benchmark_weights : n → ℝ)
    (use_ewma : Bool) (ewma_decay : ℝ) : PCTEResult n :=
  let port_w := normalizePos portfolio_weights
  let bench_w := normalizePos benchmark_weights
  let active_w := fun i => port_w i - bench_w i
  let cov := ensure_psd (if use_ewma then calculate_ewma_covariance m X ewma_decay 12
                         else sampleCov m X) 1e-10
  let te_var := active_w ⬝ᵥ (cov *ᵥ active_w)
  let te_vol := if 0 < te_var then Real.sqrt te_var else 0
  let mcte := if 0 < te_vol then (fun i => (cov *ᵥ active_w) i / te_vol)
              else fun _ => 0
  let pcte0 := if 0 < te_vol then (fun i => active_w i * mcte i) else fun _ => 0
  let pcte_normalized :=
    if 0 < te_vol then
      (if 0 < ∑ i, |pcte0 i| then (fun i => pcte0 i / ∑ j, |pcte0 j|) else pcte0)
    else pcte0
  ⟨te_vol * Real.sqrt 12, te_vol, pcte_normalized, mcte, active_w⟩

/-- Exception-behaviour model of the `ensure_psd` body (risk_engine.py lines
421-425, optimization_engine.py lines 194-198): the call to `np.linalg.eigh`
— an external LAPACK routine that can raise `LinAlgError` on
non-convergence — is an explicit oracle returning either an error or an
`(eigenvalues, eigenvectors)` pair.  The source wraps the call in no
`try`/`except`, so an error outcome propagates to the caller. -/
def ensure_psdExc [Fintype n] [DecidableEq n]
    (eigh : Matrix n n ℝ → Except String ((n → ℝ) × Matrix n n ℝ))
    (A : Matrix n n ℝ) (ε : ℝ) : Except String (Matrix n n ℝ) :=
  match eigh A with
  | Except.error e => Except.error e
  | Except.ok (vals, vecs) =>
      Except.ok (vecs * Matrix.diagonal (fun i => max (vals i) ε) * vecsᵀ)

/-- Pearson correlation `returns.corr()` between columns `i` and `j`
(pairwise complete observations; without NaN this is the sample covariance
normalized by the sample volatilities). -/
def sampleCorr (m : ℕ) (X : Fin m → n → ℝ) (i j : n) : ℝ :=
  sampleCov m X i j / (Real.sqrt (sampleCov m X i i) * Real.sqrt (sampleCov m X j j))

/-- Result record of `compute_diversification_metrics`
(risk_engine.py lines 770-776). -/
structure DivMetrics where
  diversification_ratio : ℝ
  diversification_benefit_pct : ℝ
  weighted_avg_correlation : ℝ
  portfolio_vol_annualized : ℝ
  weighted_avg_vol_annualized : ℝ

/-- The covariance selected by `compute_diversification_metrics`
(risk_engine.py lines 734-737; no PSD repair here): EWMA with the default
decay 0.94 and `min_periods = 12`, or the simple sample covariance. -/
def divCov [Fintype n] (m : ℕ) (X : Fin m → n → ℝ) (use_ewma : Bool) : Matrix n n ℝ :=
  if use_ewma then calculate_ewma_covariance m X 0.94 12 else sampleCov m X

/-- Model of `weighted_avg_vol = np.sum(w.values * individual_vols)` with
`individual_vols = np.sqrt(np.diag(cov))` (risk_engine.py lines 740-743),
on the normalized weights. -/
def weightedAvgVol [Fintype n] (m : ℕ) (X : Fin m → n → ℝ) (w₀ : n → ℝ)
    (use_ewma : Bool) : ℝ :=
  ∑ i, normalizeSum w₀ i * Real.sqrt (divCov m X use_ewma i i)

/-- Model of `portfolio_var = w @ cov @ w` (risk_engine.py line 746), on the normalized
weights. -/
def divPortfolioVar [Fintype n] (m : ℕ) (X : Fin m → n → ℝ) (w₀ : n → ℝ)
    (use_ewma : Bool) : ℝ :=
  normalizeSum w₀ ⬝ᵥ (divCov m X use_ewma *ᵥ normalizeSum w₀)

/-- Model of `div_ratio = weighted_avg_vol / portfolio_vol if portfolio_vol > 0 else
1.0` (risk_engine.py line 750), with `portfolio_vol = np.sqrt(portfolio_var)`. -/
def divRatio [Fintype n] (m : ℕ) (X : Fin m → n → ℝ) (w₀ : n → ℝ)
    (use_ewma : Bool) : ℝ :=
  if 0 < Real.sqrt (divPortfolioVar m X w₀ use_ewma) then
    weightedAvgVol m X w₀ use_ewma / Real.sqrt (divPortfolioVar m X w₀ use_ewma)
  else 1

/-- The weighted average pairwise correlation loop
(risk_engine.py lines 755-768): sums `w_i w_j corr_ij` over ordered pairs
`i < j` of distinct columns; `1.0` for a single asset. -/
def divAvgCorr [Fintype n] [LinearOrder n] (m : ℕ) (X : Fin m → n → ℝ)
    (w₀ : n → ℝ) : ℝ :=
  let w := normalizeSum w₀
  let pairs := Finset.univ.filter (fun pr : n × n => pr.1 < pr.2)
  let total_weight := ∑ pr ∈ pairs, w pr.1 * w pr.2
  let weighted_corr := ∑ pr ∈ pairs, (w pr.1 * w pr.2) * sampleCorr m X pr.1 pr.2
  if 1 < Fintype.card n then
    (if 0 < total_weight then weighted_corr / total_weight else 0)
  else 1

/-- Model of `compute_diversification_metrics(weights, returns, use_ewma=True)`
(risk_engine.py lines 712-776). -/
def compute_diversification_metrics [Fintype n] [LinearOrder n] (m : ℕ)
    (X : Fin m → n → ℝ) (w₀ : n → ℝ) (use_ewma : Bool) : DivMetrics :=
  let weighted_avg_vol := weightedAvgVol m X w₀ use_ewma
  let portfolio_vol := Real.sqrt (divPortfolioVar m X w₀ use_ewma)
  ⟨divRatio m X w₀ use_ewma,
   if 0 < weighted_avg_vol then (1 - portfolio_vol / weighted_avg_vol) * 100 else 0,
   divAvgCorr m X w₀,
   portfolio_vol * Real.sqrt 12,
   weighted_avg_vol * Real.sqrt 12⟩

/-- Concrete 3-observation, 2-asset return table used as test input:
columns `(0, 1, -1)` and `(1, 0, -1)` (both mean 0, sample variance 1,
sample covariance 1/2, sample correlation 1/2). -/
def cexReturns : Fin 3 → Fin 2 → ℝ := fun t i =>
  if t = 0 then (if i = 0 then 0 else 1)
  else if t = 1 then (if i = 0 then 1 else 0)
  else -1

/-- Concrete long/short weight vector `(2, -1)` (sums to 1). -/
def cexWeights : Fin 2 → ℝ := fun i => if i = 0 then 2 else -1

end

end RiskEngine

namespace OptimizationEngine

/-- First index of the maximum of a list (`np.argmax` semantics: the earliest
index attaining the maximum wins; `0` on an empty array, which numpy rejects —
the engine never reaches that case). -/
def npArgmax {α : Type*} [LinearOrder α] : List α → ℕ
  | [] => 0
  | x :: rest =>
    match rest[npArgmax rest]? with
    | none => 0
    | some y => if x < y then npArgmax rest + 1 else 0

/-- First index of the minimum of a list (`np.argmin` semantics). -/
def npArgmin {α : Type*} [LinearOrder α] : List α → ℕ
  | [] => 0
  | x :: rest =>
    match rest[npArgmin rest]? with
    | none => 0
    | some y => if y < x then npArgmin rest + 1 else 0

/-- Result of `find_optimal_portfolio` (optimization_engine.py lines 572-614):
either the early dictionary `{"error": "Empty frontier"}` or the full record.
The `weights` field models `frontier_weights[idx]` as an optional lookup (a
mismatched weights list would raise `IndexError` in Python); the
`selection_method` label string is presentation-only and not modelled. -/
inductive FindResult (W : Type*) where
  | err (msg : String)
  | ok (index : ℕ) (ret : ℚ) (risk : ℚ) (sharpe_ratio : ℚ) (weights : Option W)
  deriving DecidableEq

/-- Index selected by `find_optimal_portfolio`, or `0` for the error case. -/
def FindResult.idx {W : Type*} : FindResult W → ℕ
  | FindResult.err _ => 0
  | FindResult.ok i _ _ _ _ => i

/-- Model of `sharpes = (rets - risk_free_rate) / np.maximum(risks, 1e-10)`
(optimization_engine.py line 579), over exact rationals. -/
def sharpeRatios (frontier_risks frontier_returns : List ℚ) (risk_free_rate : ℚ) : List ℚ :=
  List.zipWith (fun risk ret => (ret - risk_free_rate) / max risk 1e-10)
    frontier_risks frontier_returns

/-- The selection logic of `find_optimal_portfolio`
(optimization_engine.py lines 581-601):
with `target_return` set, the min-risk index among points with
`ret ≥ target` (`np.where(valid, risks, np.inf)` then `argmin`), or the
max-return index when no point qualifies; with `target_risk` set, the dual
max-return/min-risk selection (`np.where(valid, rets, -np.inf)` then
`argmax`); otherwise the max-Sharpe index.  `np.inf`/`-np.inf` are modelled by
`⊤ : WithTop ℚ` and `⊥ : WithBot ℚ`. -/
def selectIndex (frontier_risks frontier_returns : List ℚ)
    (target_return target_risk : Option ℚ) (risk_free_rate : ℚ) : ℕ :=
  match target_return with
  | some t =>
    let valid := frontier_returns.map (fun r => decide (t ≤ r))
    if valid.any (fun b => b) then
      npArgmin (List.zipWith (fun v r => if v then (r : WithTop ℚ) else ⊤)
        valid frontier_risks)
    else npArgmax frontier_returns
  | none =>
    match target_risk with
    | some tr =>
      let valid := frontier_risks.map (fun r => decide (r ≤ tr))
      if valid.any (fun b => b) then
        npArgmax (List.zipWith (fun v q => if v then (q : WithBot ℚ) else ⊥)
          valid frontier_returns)
      else npArgmin frontier_risks
    | none => npArgmax (sharpeRatios frontier_risks frontier_returns risk_free_rate)

/-- Model of `find_optimal_portfolio(frontier_risks, frontier_returns,
frontier_weights, target_return=None, target_risk=None, risk_free_rate=0.03)`
(optimization_engine.py lines 550-614). -/
def find_optimal_portfolio {W : Type*} (frontier_risks frontier_returns : List ℚ)
    (frontier_weights : List W) (target_return target_risk : Option ℚ)
    (risk_free_rate : ℚ) : FindResult W :=
  if frontier_risks.length = 0 then FindResult.err "Empty frontier"
  else
    let idx := selectIndex frontier_risks frontier_returns target_return target_risk
      risk_free_rate
    FindResult.ok idx (frontier_returns.getD idx 0) (frontier_risks.getD idx 0)
      ((sharpeRatios frontier_risks frontier_returns risk_free_rate).getD idx 0)
      frontier_weights[idx]?

noncomputable section

open RiskEngine Matrix

/-- A row of the CMA (capital-market assumptions) table
(optimization_engine.py docstrings): asset name plus `RETURN`, `RISK`,
`CAP_MAX` and `RISK ALLOCATION` columns, with `Option` for missing (NaN)
entries. -/
structure CMARow where
  asset_class : String
  ret : Option ℝ
  risk : Option ℝ
  cap_max : Option ℝ
  risk_allocation : Option String

/-- Model of `CORE_ASSETS` (optimization_engine.py lines 26-34). -/
def CORE_ASSETS : List String :=
  ["GLOBAL CASH", "GLOBAL GOVERNMENT", "GLOBAL AGGREGATE", "HIGH YIELD",
   "GOLD", "GLOBAL", "EM"]

/-- Model of `PRIVATE_ASSETS` (optimization_engine.py lines 36-45). -/
def PRIVATE_ASSETS : List String :=
  ["GLOBAL CASH", "GLOBAL GOVERNMENT", "PRIVATE DEBT", "PRIVATE INFRASTRUCTURE",
   "REAL ESTATE", "ABSOLUTE RETURN HS", "GROWTH DIRECTIONAL HF", "PRIVATE EQUITY"]

/-- Model of `SPECIAL_ASSETS` (optimization_engine.py line 47). -/
def SPECIAL_ASSETS : List String :=
  ["VENTURE", "CLO", "DEVELOPMENT", "SPECIAL SITS", "GROWTH"]

/-- The validity filter `(RISK.fillna(0) > 0) & RETURN.notna()`
(optimization_engine.py lines 85 and 339). -/
def validRow (r : CMARow) : Bool :=
  decide (0 < r.risk.getD 0) && r.ret.isSome

/-- Model of `build_universe(mode, cma_data)` (optimization_engine.py lines 54-87):
membership filter by mode, then the validity filter. -/
def build_universe (mode : String) (cma_data : List CMARow) : List CMARow :=
  let sub :=
    if mode = "core" then
      cma_data.filter (fun r => decide (r.asset_class.toUpper ∈ CORE_ASSETS))
    else if mode = "core_private" then
      cma_data.filter (fun r =>
        decide (r.asset_class.toUpper ∈ CORE_ASSETS ∨
                r.asset_class.toUpper ∈ PRIVATE_ASSETS))
    else cma_data
  sub.filter validRow

/-- Model of `caps_from_template(assets, template)` (optimization_engine.py lines
94-118): per-asset `(0, cap)` bounds, with `CAP_MAX` defaulting to 1.0,
clipped to `[0,1]`, tightened to 0.25 by the `"tight"` template. -/
def caps_from_template (assets : List CMARow) (template : String) : List (ℝ × ℝ) :=
  assets.map (fun r =>
    let cap := min (max (r.cap_max.getD 1) 0) 1
    let cap2 := if template = "tight" then min cap 0.25
                else if template = "loose" then min cap 1 else cap
    ((0 : ℝ), cap2))

/-- Model of `special_caps(assets)` (optimization_engine.py lines 121-137): `(0, 0.25)`
for the named illiquid/special assets, `(0, 1)` otherwise. -/
def special_caps (assets : List CMARow) : List (ℝ × ℝ) :=
  assets.map (fun r =>
    if r.asset_class.toUpper ∈ SPECIAL_ASSETS then ((0 : ℝ), (0.25 : ℝ))
    else ((0 : ℝ), (1 : ℝ)))

/-- Model of `bucket_indices(assets)` (optimization_engine.py lines 140-164).
`has_ra` models whether the table has a `RISK ALLOCATION` column. -/
def bucket_indices (has_ra : Bool) (assets : List CMARow) :
    List ℕ × List ℕ × List ℕ :=
  if has_ra = false then (List.range assets.length, [], [])
  else
    let ra := assets.map (fun r => (r.risk_allocation.getD "").trim.toUpper)
    let div_idx := (List.range assets.length).filter
      (fun k => decide (ra.getD k "" = "DIVERSIFIED"))
    let grow_idx := (List.range assets.length).filter
      (fun k => decide (ra.getD k "" = "GROWTH"))
    let stab_idx :=
      if 0 < div_idx.length + grow_idx.length then
        (List.range assets.length).filter
          (fun k => decide (ra.getD k "" ≠ "DIVERSIFIED" ∧ ra.getD k "" ≠ "GROWTH"))
      else List.range assets.length
    (stab_idx, div_idx, grow_idx)

/-- Model of `build_bucket_env(assets)` (optimization_engine.py lines 167-187): one
`(indices, 0.0, 1.0)` constraint per non-empty bucket. -/
def build_bucket_env (has_ra : Bool) (assets : List CMARow) :
    List (List ℕ × ℝ × ℝ) :=
  let bi := bucket_indices has_ra assets
  ((if 0 < bi.1.length then [(bi.1, (0 : ℝ), (1 : ℝ))] else []) ++
   (if 0 < bi.2.1.length then [(bi.2.1, (0 : ℝ), (1 : ℝ))] else []) ++
   (if 0 < bi.2.2.length then [(bi.2.2, (0 : ℝ), (1 : ℝ))] else []))

/-- The return vector `mu` of `mean_cov_from_assets`
(optimization_engine.py line 216). -/
def muOf (assets : List CMARow) : Fin assets.length → ℝ :=
  fun i => (assets.get i).ret.getD 0

/-- The volatility vector `sig` of `mean_cov_from_assets`
(optimization_engine.py line 217). -/
def sigOf (assets : List CMARow) : Fin assets.length → ℝ :=
  fun i => (assets.get i).risk.getD 0

/-- The reindexed correlation submatrix with missing entries filled by 0
(optimization_engine.py line 220); the full correlation table is a partial map
on asset names. -/
def corrSub (assets : List CMARow) (correlation : String → String → Option ℝ) :
    Matrix (Fin assets.length) (Fin assets.length) ℝ :=
  Matrix.of fun i j =>
    (correlation ((assets.get i).asset_class.toUpper)
      ((assets.get j).asset_class.toUpper)).getD 0

/-- Model of `Sigma = outer(sig, sig) * corr`, then PSD repair with the shared
`ensure_psd` (optimization_engine.py lines 223-226; `ensure_psd` there is an
identical copy of the risk-engine function, modelled once). -/
def sigmaOf (assets : List CMARow) (correlation : String → String → Option ℝ) :
    Matrix (Fin assets.length) (Fin assets.length) ℝ :=
  RiskEngine.ensure_psd
    (Matrix.of fun i j => sigOf assets i * sigOf assets j * corrSub assets correlation i j)
    1e-10

/-- Result of one `scipy.optimize.minimize` call (`result.success`,
`result.x`). -/
structure OptResult (k : ℕ) where
  success : Bool
  x : Fin k → ℝ

/-- The external SLSQP solver `scipy.optimize.minimize`
(optimization_engine.py lines 292-300), as an oracle: it receives the problem
data assembled by `qp_solver` (objective parameters `mu`, `Sigma`, the box
bounds, the bucket constraints, the risk aversion and the initial guess) and
reports success plus a point. -/
def MinimizeOracle : Type :=
  (k : ℕ) → (Fin k → ℝ) → Matrix (Fin k) (Fin k) ℝ → List (ℝ × ℝ) →
    List (List ℕ × ℝ × ℝ) → ℝ → (Fin k → ℝ) → OptResult k

/-- Model of `qp_solver(mu, Sigma, bounds, bucket_env)` (optimization_engine.py lines
235-304): returns the per-lambda solver; the initial guess defaults to the
equal-weight vector and is clipped into the box bounds before the external
`minimize` call. -/
def qp_solver {k : ℕ} (minimize : MinimizeOracle) (mu : Fin k → ℝ)
    (Sigma : Matrix (Fin k) (Fin k) ℝ) (bounds : List (ℝ × ℝ))
    (bucket_env : List (List ℕ × ℝ × ℝ)) :
    ℝ → Option (Fin k → ℝ) → OptResult k :=
  fun lmbd x0 =>
    let x0a := x0.getD (fun _ => 1 / (k : ℝ))
    let x0c := fun i => min (max (x0a i) ((bounds.getD i (0, 0)).1))
      ((bounds.getD i (0, 0)).2)
    minimize k mu Sigma bounds bucket_env lmbd x0c

/-- Model of `np.geomspace(0.1, 200.0, n_points)` (optimization_engine.py line 370). -/
def geomspace (a b : ℝ) (num : ℕ) : List ℝ :=
  (List.range num).map (fun i => a * (b / a) ^ ((i : ℝ) / ((num : ℝ) - 1)))

/-- The lambda sweep (optimization_engine.py lines 373-389): a single linear
pass accumulating `(risks, returns, weights)`; converged points update the
warm start, non-converging points are dropped. -/
def frontier_sweep {k : ℕ} (solver : ℝ → Option (Fin k → ℝ) → OptResult k)
    (mu : Fin k → ℝ) (Sigma : Matrix (Fin k) (Fin k) ℝ)
    (asset_names : List String) (lambdas : List ℝ) :
    List ℝ × List ℝ × List (List (String × ℝ)) :=
  let step := fun (st : Option (Fin k → ℝ) × List ℝ × List ℝ × List (List (String × ℝ)))
      (lam : ℝ) =>
    let res := solver lam st.1
    if res.success then
      let w := res.x
      (some w,
       st.2.1 ++ [Real.sqrt (max (w ⬝ᵥ (Sigma *ᵥ w)) 0)],
       st.2.2.1 ++ [Matrix.dotProduct mu w],
       st.2.2.2 ++ [List.ofFn (fun i : Fin k => (asset_names.getD i "", w i))])
    else st
  (lambdas.foldl step (none, [], [], [])).2

/-- Result of `compute_efficient_frontier` (optimization_engine.py lines
344-350 and 391-399): the structured error dictionary with empty series, or
the success dictionary — which carries no error key. -/
inductive FrontierOutcome where
  | err (risks : List ℝ) (returns : List ℝ) (weights : List (List (String × ℝ)))
      (assets : List String) (error : String)
  | ok (risks : List ℝ) (returns : List ℝ) (weights : List (List (String × ℝ)))
      (assets : List String) (n_portfolios : ℕ) (mode caps_template : String)

/-- The `error` field of a frontier result: present only on the error path. -/
def FrontierOutcome.errorField : FrontierOutcome → Option String
  | FrontierOutcome.err _ _ _ _ e => some e
  | FrontierOutcome.ok _ _ _ _ _ _ _ => none

/-- The `risks` series of a frontier result. -/
def FrontierOutcome.risksField : FrontierOutcome → List ℝ
  | FrontierOutcome.err r _ _ _ _ => r
  | FrontierOutcome.ok r _ _ _ _ _ _ => r

/-- The `returns` series of a frontier result. -/
def FrontierOutcome.returnsField : FrontierOutcome → List ℝ
  | FrontierOutcome.err _ r _ _ _ => r
  | FrontierOutcome.ok _ r _ _ _ _ _ => r

/-- Universe selection of `compute_efficient_frontier`
(optimization_engine.py lines 336-341): the custom asset list is honoured only
when it names at least two entries (`if custom_assets and
len(custom_assets) >= 2`); otherwise `build_universe(mode, ...)` is used. -/
def frontier_universe (mode : String) (custom_assets : Option (List String))
    (cma_data : List CMARow) : List CMARow :=
  match custom_assets with
  | some cas =>
    if 2 ≤ cas.length then
      (cma_data.filter (fun r =>
        decide (r.asset_class.toUpper ∈ cas.map String.toUpper))).filter validRow
    else build_universe mode cma_data
  | none => build_universe mode cma_data

/-- Model of `compute_efficient_frontier(cma_data, correlation_matrix,
mode="unconstrained", caps_template="std", custom_assets=None, n_points=30,
lambdas=None)` (optimization_engine.py lines 311-399).  With fewer than two
valid assets in the selected universe the structured error result is
returned; otherwise the lambda sweep runs and the success record — which
carries no error field — is returned. -/
def compute_efficient_frontier (minimize : MinimizeOracle) (cma_data : List CMARow)
    (has_ra : Bool) (correlation : String → String → Option ℝ)
    (mode : String) (caps_template : String)
    (custom_assets : Option (List String)) (n_points : ℕ)
    (lambdas : Option (List ℝ)) : FrontierOutcome :=
  let sub := frontier_universe mode custom_assets cma_data
  if sub.length < 2 then
    FrontierOutcome.err [] [] [] [] "Need at least 2 assets"
  else
    let mu := muOf sub
    let Sigma := sigmaOf sub correlation
    let asset_names := sub.map (fun r => r.asset_class.toUpper)
    let gen_bounds := caps_from_template sub caps_template
    let spec_bounds := special_caps sub
    let bounds := List.zipWith (fun g s => ((0 : ℝ), min g.2 s.2)) gen_bounds spec_bounds
    let bucket_env := build_bucket_env has_ra sub
    let solver := qp_solver minimize mu Sigma bounds bucket_env
    let lams := lambdas.getD (geomspace 0.1 200 n_points)
    let swept := frontier_sweep solver mu Sigma asset_names lams
    FrontierOutcome.ok swept.1 swept.2.1 swept.2.2 asset_names swept.1.length
      mode caps_template

/-- A minimize oracle that never converges (used as a concrete stand-in: the
error-path claims do not depend on solver outcomes). -/
def failMinimize : MinimizeOracle :=
  fun _k _ _ _ _ _ _ => ⟨false, fun _ => 0⟩

/-- A correlation table with no entries (every pairwise entry missing, hence
filled with 0 by `mean_cov_from_assets`). -/
def cexCorr : String → String → Option ℝ := fun _ _ => none

/-- A two-row CMA table with valid risk and return on both rows. -/
def cexCMA : List CMARow :=
  [⟨"ASSET1", some 0.08, some 0.16, none, none⟩,
   ⟨"ASSET2", some 0.04, some 0.05, none, none⟩]

end

end OptimizationEngine

namespace RiskEngine

noncomputable section

open Matrix BigOperators Finset

variable {n : Type*}

/-- Over the reals, numpy's `.T` coincides with the conjugate transpose. -/
lemma real_transpose_eq_conjTranspose {m : Type*} (B : Matrix m m ℝ) : Bᵀ = Bᴴ := by
  ext i j
  simp [Matrix.conjTranspose_apply]

/-- On a Hermitian input, `ensure_psd` is the clipped spectral reconstruction. -/
lemma ensure_psd_of_isHermitian [Fintype n] [DecidableEq n] {A : Matrix n n ℝ}
    (hA : A.IsHermitian) (ε : ℝ) :
    ensure_psd A ε =
      (hA.eigenvectorUnitary : Matrix n n ℝ) *
        Matrix.diagonal (fun i => max (hA.eigenvalues i) ε) *
        (hA.eigenvectorUnitary : Matrix n n ℝ)ᴴ := by
  rw [ensure_psd, dif_pos hA, real_transpose_eq_conjTranspose]

/-- The clipped reconstruction is positive semidefinite whenever `0 ≤ ε`. -/
lemma ensure_psd_posSemidef [Fintype n] [DecidableEq n] {A : Matrix n n ℝ}
    (hA : A.IsHermitian) {ε : ℝ} (hε : 0 ≤ ε) : (ensure_psd A ε).PosSemidef := by
  rw [ensure_psd_of_isHermitian hA]
  exact (Matrix.PosSemidef.diagonal
    (fun i => le_trans hε (le_max_right _ _))).mul_mul_conjTranspose_same _

/-- The clipped reconstruction is positive definite whenever `0 < ε`: all
clipped eigenvalues are at least `ε`. -/
lemma ensure_psd_posDef [Fintype n] [DecidableEq n] {A : Matrix n n ℝ}
    (hA : A.IsHermitian) {ε : ℝ} (hε : 0 < ε) : (ensure_psd A ε).PosDef := by
  rw [ensure_psd_of_isHermitian hA]
  set V : Matrix n n ℝ := (hA.eigenvectorUnitary : Matrix n n ℝ) with hV
  have hD : (Matrix.diagonal (fun i => max (hA.eigenvalues i) ε)).PosDef :=
    Matrix.PosDef.diagonal (fun i => lt_of_lt_of_le hε (le_max_right _ _))
  refine ⟨(hD.posSemidef.mul_mul_conjTranspose_same V).1, fun x hx => ?_⟩
  have hVV : V * Vᴴ = 1 := by
    have h := Matrix.mem_unitaryGroup_iff.mp hA.eigenvectorUnitary.2
    rwa [Matrix.star_eq_conjTranspose] at h
  have hinj : Vᴴ *ᵥ x ≠ 0 := by
    intro h0
    apply hx
    calc x = (V * Vᴴ) *ᵥ x := by rw [hVV, Matrix.one_mulVec]
      _ = V *ᵥ (Vᴴ *ᵥ x) := (Matrix.mulVec_mulVec _ _ _).symm
      _ = 0 := by rw [h0, Matrix.mulVec_zero]
  have h2 := hD.2 (Vᴴ *ᵥ x) hinj
  rw [Matrix.star_mulVec, Matrix.conjTranspose_conjTranspose] at h2
  rw [← Matrix.mulVec_mulVec, ← Matrix.mulVec_mulVec, Matrix.dotProduct_mulVec]
  exact h2

/-- The trace of the repaired matrix is the sum of the clipped eigenvalues. -/
lemma trace_ensure_psd [Fintype n] [DecidableEq n] {A : Matrix n n ℝ}
    (hA : A.IsHermitian) (ε : ℝ) :
    (ensure_psd A ε).trace = ∑ i, max (hA.eigenvalues i) ε := by
  rw [ensure_psd_of_isHermitian hA, Matrix.trace_mul_cycle]
  have h : (hA.eigenvectorUnitary : Matrix n n ℝ)ᴴ *
      (hA.eigenvectorUnitary : Matrix n n ℝ) = 1 := by
    have h := Matrix.mem_unitaryGroup_iff'.mp hA.eigenvectorUnitary.2
    rwa [Matrix.star_eq_conjTranspose] at h
  rw [h, Matrix.one_mul, Matrix.trace_diagonal]

/-- The eigenvalues of a real symmetric matrix sum to its trace. -/
lemma sum_eigenvalues_eq_trace [Fintype n] [DecidableEq n] {A : Matrix n n ℝ}
    (hA : A.IsHermitian) : ∑ i, hA.eigenvalues i = A.trace := by
  conv_rhs => rw [hA.spectral_theorem]
  rw [Matrix.trace_mul_cycle]
  rw [Matrix.mem_unitaryGroup_iff'.mp hA.eigenvectorUnitary.2]
  rw [Matrix.one_mul, Matrix.trace_diagonal]
  simp [RCLike.ofReal_real_eq_id]

/-- The sample covariance matrix is symmetric. -/
lemma sampleCov_isHermitian [Fintype n] (m : ℕ) (X : Fin m → n → ℝ) :
    (sampleCov m X).IsHermitian := by
  show (sampleCov m X)ᴴ = sampleCov m X
  ext i j
  simp only [Matrix.conjTranspose_apply, sampleCov, Matrix.of_apply, star_trivial]
  congr 1
  exact Finset.sum_congr rfl fun t _ => mul_comm _ _

/-- The EWMA covariance body is symmetric. -/
lemma ewmaCovBody_isHermitian [Fintype n] (decay : ℝ) (m : ℕ) (X : Fin m → n → ℝ) :
    (ewmaCovBody decay m X).IsHermitian := by
  show (ewmaCovBody decay m X)ᴴ = ewmaCovBody decay m X
  ext i j
  simp only [Matrix.conjTranspose_apply, ewmaCovBody, Matrix.of_apply, star_trivial]
  exact Finset.sum_congr rfl fun t _ => mul_comm _ _

/-- Either covariance estimator produces a symmetric matrix. -/
lemma calculate_ewma_covariance_isHermitian [Fintype n] (m : ℕ) (X : Fin m → n → ℝ)
    (decay : ℝ) (min_periods : ℕ) :
    (calculate_ewma_covariance m X decay min_periods).IsHermitian := by
  unfold calculate_ewma_covariance
  split
  · exact sampleCov_isHermitian m X
  · exact ewmaCovBody_isHermitian decay m X

/-- Claim C1: whenever the portfolio variance `w' Σ w` computed by
`calculate_contributions` is strictly positive, the returned percentage
contributions to risk sum to 1 (well within the 1e-6 tolerance: the sum is
exactly 1 in exact arithmetic). -/
theorem calculate_contributions_pctr_sums_to_one [Fintype n] [DecidableEq n]
    (m : ℕ) (X : Fin m → n → ℝ) (w₀ : n → ℝ) (use_ewma : Bool) (ewma_decay : ℝ)
    (h : 0 < contribVar m X w₀ use_ewma ewma_decay) :
    |(∑ i, (calculate_contributions m X w₀ use_ewma ewma_decay).pctr i) - 1| ≤ 1e-6 := by
  have hvol : 0 < Real.sqrt (contribVar m X w₀ use_ewma ewma_decay) :=
    Real.sqrt_pos.mpr h
  set w := normalizeSum w₀ with hw
  set cov := contribCov m X use_ewma ewma_decay with hcov
  set vol := Real.sqrt (contribVar m X w₀ use_ewma ewma_decay) with hvoldef
  have hsum0 : (∑ i, w i * ((cov *ᵥ w) i / vol)) =
      contribVar m X w₀ use_ewma ewma_decay / vol := by
    rw [eq_div_iff (ne_of_gt hvol), Finset.sum_mul]
    have : ∀ i ∈ Finset.univ, w i * ((cov *ᵥ w) i / vol) * vol = w i * (cov *ᵥ w) i :=
      fun i _ => by field_simp
    rw [Finset.sum_congr rfl this]
    rfl
  have hne : (∑ i, w i * ((cov *ᵥ w) i / vol)) ≠ 0 := by
    rw [hsum0]
    exact div_ne_zero (ne_of_gt h) (ne_of_gt hvol)
  have hres : (∑ i, (calculate_contributions m X w₀ use_ewma ewma_decay).pctr i) = 1 := by
    show (∑ i, (let w' := normalizeSum w₀
      let cov' := contribCov m X use_ewma ewma_decay
      let portfolio_vol := Real.sqrt (contribVar m X w₀ use_ewma ewma_decay)
      let mctr := if 0 < portfolio_vol then (fun i => (cov' *ᵥ w') i / portfolio_vol)
                  else fun _ => 0
      let pctr0 := fun i => w' i * mctr i
      let pctr := if (∑ i, pctr0 i) ≠ 0 then (fun i => pctr0 i / ∑ j, pctr0 j) else pctr0
      (ContribResult.mk pctr mctr portfolio_vol (portfolio_vol * Real.sqrt 12)).pctr) i) = 1
    simp only [if_pos hvol]
    rw [if_pos hne]
    rw [← Finset.sum_div]
    exact div_self hne
  rw [hres]
  norm_num

/-- Witness for C1 at a concrete input: one asset, two observations `0` and
`1/5`, unit weight; the (EWMA-fallback) sample variance is `1/50 > 0` and the
PSD-repaired covariance is positive definite, so the computed portfolio
variance is strictly positive. -/
theorem calculate_contributions_pctr_sums_to_one_witness :
    0 < contribVar 2 (fun t (_ : Fin 1) => if t = 0 then 0 else 1/5)
        (fun _ => 1) true (94/100) ∧
    |(∑ i, (calculate_contributions 2 (fun t (_ : Fin 1) => if t = 0 then 0 else 1/5)
        (fun _ => 1) true (94/100)).pctr i) - 1| ≤ 1e-6 := by
  have hherm : ((if true then
      calculate_ewma_covariance 2 (fun t (_ : Fin 1) => if t = 0 then 0 else 1/5)
        (94/100) 12
      else sampleCov 2 (fun t (_ : Fin 1) => if t = 0 then 0 else 1/5))).IsHermitian := by
    rw [if_pos rfl]
    exact calculate_ewma_covariance_isHermitian 2 _ (94/100) 12
  have hPD : (contribCov 2 (fun t (_ : Fin 1) => if t = 0 then 0 else 1/5)
      true (94/100)).PosDef := by
    unfold contribCov
    exact ensure_psd_posDef hherm (by norm_num)
  have hwne : normalizeSum (fun _ : Fin 1 => (1 : ℝ)) ≠ 0 := by
    intro h0
    have h1 := congrFun h0 0
    simp [normalizeSum] at h1
  have hvar : 0 < contribVar 2 (fun t (_ : Fin 1) => if t = 0 then 0 else 1/5)
      (fun _ => 1) true (94/100) := by
    have h2 := hPD.2 (normalizeSum (fun _ : Fin 1 => (1 : ℝ))) hwne
    simpa [contribVar, star_trivial] using h2
  exact ⟨hvar, calculate_contributions_pctr_sums_to_one 2 _ _ true (94/100) hvar⟩

/-- Scaling a weight vector with positive sum by a positive constant does not
change its guarded normalization. -/
lemma normalizePos_smul [Fintype n] (p : n → ℝ) (c : ℝ) (hc : 0 < c)
    (hp : 0 < ∑ i, p i) :
    normalizePos (fun i => c * p i) = normalizePos p := by
  have hsum : ∑ i, c * p i = c * ∑ i, p i := by rw [Finset.mul_sum]
  unfold normalizePos
  rw [if_pos (by rw [hsum]; exact mul_pos hc hp), if_pos hp]
  funext i
  rw [hsum]
  rw [mul_div_mul_left _ _ (ne_of_gt hc)]

/-- Counterexample for C3 as stated: `compute_tracking_error` does not
normalize its weight vectors, so doubling the portfolio weights changes the
tracking error.  With one asset, two observations `0` and `1/5`, and portfolio
equal to benchmark, the tracking error is `0`; after doubling the portfolio
weights the active weight is `1` and the tracking error is strictly positive
because the PSD-repaired covariance is positive definite. -/
theorem compute_tracking_error_not_scale_invariant_cex :
    (compute_tracking_error 2 (fun t (_ : Fin 1) => if t = 0 then 0 else 1/5)
        (fun i => 2 * (fun _ : Fin 1 => (1 : ℝ)) i) (fun _ : Fin 1 => (1 : ℝ))
        true).tracking_error ≠
      (compute_tracking_error 2 (fun t (_ : Fin 1) => if t = 0 then 0 else 1/5)
        (fun _ : Fin 1 => (1 : ℝ)) (fun _ : Fin 1 => (1 : ℝ)) true).tracking_error := by
  have hrhs : (compute_tracking_error 2 (fun t (_ : Fin 1) => if t = 0 then 0 else 1/5)
      (fun _ : Fin 1 => (1 : ℝ)) (fun _ : Fin 1 => (1 : ℝ)) true).tracking_error = 0 := by
    simp [compute_tracking_error, Matrix.dotProduct]
  have hherm : ((if true then
      calculate_ewma_covariance 2 (fun t (_ : Fin 1) => if t = 0 then 0 else 1/5)
        0.94 12
      else sampleCov 2 (fun t (_ : Fin 1) => if t = 0 then 0 else 1/5))).IsHermitian := by
    rw [if_pos rfl]
    exact calculate_ewma_covariance_isHermitian 2 _ 0.94 12
  have hPD := ensure_psd_posDef hherm (ε := 1e-10) (by norm_num)
  have hane : (fun i : Fin 1 => 2 * (fun _ : Fin 1 => (1 : ℝ)) i - (fun _ : Fin 1 => (1 : ℝ)) i) ≠ 0 := by
    intro h0
    have h1 := congrFun h0 0
    norm_num at h1
  have hvar := hPD.2 _ hane
  rw [hrhs]
  show (compute_tracking_error _ _ _ _ _).tracking_error ≠ 0
  unfold compute_tracking_error
  refine ne_of_gt (mul_pos (Real.sqrt_pos.mpr ?_) (Real.sqrt_pos.mpr (by norm_num)))
  simpa [star_trivial] using hvar

/-- Claim C3 (amended): `calculate_pcte` normalizes both weight vectors to sum
1 before use, so its entire result is invariant under positive scaling of the
portfolio weights.  `compute_tracking_error`, by contrast, consumes the raw
weight vectors without normalization, and scaling its portfolio weights
changes the result (see `compute_tracking_error_not_scale_invariant_cex`). -/
theorem calculate_pcte_scale_invariant [Fintype n] [DecidableEq n]
    (m : ℕ) (X : Fin m → n → ℝ) (p b : n → ℝ) (use_ewma : Bool) (ewma_decay : ℝ)
    (c : ℝ) (hc : 0 < c) (hp : 0 < ∑ i, p i) :
    calculate_pcte m X (fun i => c * p i) b use_ewma ewma_decay =
      calculate_pcte m X p b use_ewma ewma_decay := by
  unfold calculate_pcte
  rw [normalizePos_smul p c hc hp]

/-- Witness for C3 (amended) at a concrete input: doubling a one-asset unit
portfolio weight leaves the whole `calculate_pcte` result unchanged. -/
theorem calculate_pcte_scale_invariant_witness :
    (0 : ℝ) < 2 ∧ (0 : ℝ) < (∑ _j : Fin 1, (1 : ℝ)) ∧
      calculate_pcte 2 (fun t (_ : Fin 1) => if t = 0 then 0 else 1/5)
          (fun i => 2 * (fun _ : Fin 1 => (1 : ℝ)) i) (fun _ : Fin 1 => (1 : ℝ))
          true 0.94 =
        calculate_pcte 2 (fun t (_ : Fin 1) => if t = 0 then 0 else 1/5)
          (fun _ : Fin 1 => (1 : ℝ)) (fun _ : Fin 1 => (1 : ℝ)) true 0.94 :=
  ⟨by norm_num, by simp,
    calculate_pcte_scale_invariant 2 _ _ _ true 0.94 2 (by norm_num) (by simp)⟩

/-- Claim C2 (amended): for every symmetric input matrix and nonnegative
epsilon, the matrix returned by `ensure_psd` is symmetric and has all
eigenvalues ≥ 0.  The claim's further assertion that correlation-typed inputs
come back with exactly 1 on every diagonal entry is false —
`ensure_psd` performs no diagonal renormalization (see
`ensure_psd_unit_diagonal_cex`); that step exists only in the excluded data
layer (data_loader.py lines 126-141). -/
theorem ensure_psd_symmetric_eigenvalues_nonneg [Fintype n] [DecidableEq n]
    {A : Matrix n n ℝ} {ε : ℝ} (hA : A.IsHermitian) (hε : 0 ≤ ε) :
    (ensure_psd A ε).IsHermitian ∧
      ∀ (h : (ensure_psd A ε).IsHermitian) (i : n), 0 ≤ h.eigenvalues i := by
  have hps := ensure_psd_posSemidef hA hε
  exact ⟨hps.1, fun h i => hps.eigenvalues_nonneg i⟩

/-- Witness for C2 at a concrete input: the 2×2 identity (a valid correlation
matrix) with the source's default `epsilon = 1e-10`. -/
theorem ensure_psd_symmetric_eigenvalues_nonneg_witness :
    (ensure_psd (1 : Matrix (Fin 2) (Fin 2) ℝ) 1e-10).IsHermitian ∧
      ∀ (h : (ensure_psd (1 : Matrix (Fin 2) (Fin 2) ℝ) 1e-10).IsHermitian)
        (i : Fin 2), 0 ≤ h.eigenvalues i :=
  ensure_psd_symmetric_eigenvalues_nonneg Matrix.isHermitian_one (by norm_num)

/-- Counterexample for C2 as stated: the singular correlation matrix
`[[1,1],[1,1]]` (two perfectly correlated assets, unit diagonal) does not come
back from `ensure_psd` with unit diagonal — clipping the zero eigenvalue up to
`epsilon` raises the trace strictly above 2, so at least one diagonal entry
differs from 1. -/
theorem ensure_psd_unit_diagonal_cex :
    ¬ (ensure_psd (!![1, 1; 1, 1] : Matrix (Fin 2) (Fin 2) ℝ) 1e-10 0 0 = 1 ∧
       ensure_psd (!![1, 1; 1, 1] : Matrix (Fin 2) (Fin 2) ℝ) 1e-10 1 1 = 1) := by
  have hA : (!![1, 1; 1, 1] : Matrix (Fin 2) (Fin 2) ℝ).IsHermitian := by
    ext i j
    fin_cases i <;> fin_cases j <;> simp [Matrix.conjTranspose_apply]
  have htr : (ensure_psd (!![1, 1; 1, 1] : Matrix (Fin 2) (Fin 2) ℝ) 1e-10).trace =
      ∑ i, max (hA.eigenvalues i) 1e-10 := trace_ensure_psd hA _
  have hsum : ∑ i, hA.eigenvalues i = 2 := by
    rw [sum_eigenvalues_eq_trace hA, Matrix.trace_fin_two_of]
    norm_num
  obtain ⟨i0, hi0⟩ : ∃ i, hA.eigenvalues i = 0 := by
    have h := hA.det_eq_prod_eigenvalues
    rw [Matrix.det_fin_two_of, Fin.prod_univ_two] at h
    norm_num at h
    rcases h with h0 | h1
    · exact ⟨0, h0⟩
    · exact ⟨1, h1⟩
  have hbig : (2 : ℝ) + 1e-10 ≤
      (ensure_psd (!![1, 1; 1, 1] : Matrix (Fin 2) (Fin 2) ℝ) 1e-10).trace := by
    rw [htr]
    have hterm : ∀ i ∈ Finset.univ,
        (0 : ℝ) ≤ max (hA.eigenvalues i) 1e-10 - hA.eigenvalues i :=
      fun i _ => by simp [le_max_left]
    have hone : max (hA.eigenvalues i0) 1e-10 - hA.eigenvalues i0 ≤
        ∑ i, (max (hA.eigenvalues i) 1e-10 - hA.eigenvalues i) :=
      Finset.single_le_sum hterm (Finset.mem_univ i0)
    have hmax0 : max (hA.eigenvalues i0) 1e-10 - hA.eigenvalues i0 = 1e-10 := by
      rw [hi0]
      norm_num
    have hsplit : ∑ i, max (hA.eigenvalues i) 1e-10 =
        (∑ i, hA.eigenvalues i) +
          ∑ i, (max (hA.eigenvalues i) 1e-10 - hA.eigenvalues i) := by
      rw [← Finset.sum_add_distrib]
      simp
    rw [hsplit, hsum]
    rw [hmax0] at hone
    linarith
  rintro ⟨h00, h11⟩
  have htr2 : (ensure_psd (!![1, 1; 1, 1] : Matrix (Fin 2) (Fin 2) ℝ) 1e-10).trace = 2 := by
    rw [Matrix.trace_fin_two, h00, h11]
    norm_num
  rw [htr2] at hbig
  norm_num at hbig

/-- Counterexample for C7 as stated: on an input where the eigendecomposition
step fails, `ensure_psd` does not return the input matrix unchanged — there is
no `try`/`except` in the function, so the failure is not caught. -/
theorem ensure_psd_no_catch_cex :
    ensure_psdExc (fun _ => Except.error "LinAlgError: eigenvalues did not converge")
      (!![(0 : ℝ)] : Matrix (Fin 1) (Fin 1) ℝ) 1e-10 ≠
      Except.ok (!![(0 : ℝ)] : Matrix (Fin 1) (Fin 1) ℝ) := by
  simp [ensure_psdExc]

/-- Claim C7 (amended): when the eigendecomposition step fails, `ensure_psd`
propagates the failure to its caller unchanged (the error surfaces as an
exception); only the excluded data layer catches `LinAlgError`
(data_loader.py lines 139-141). -/
theorem ensure_psdExc_propagates_error [Fintype n] [DecidableEq n]
    (eigh : Matrix n n ℝ → Except String ((n → ℝ) × Matrix n n ℝ))
    (A : Matrix n n ℝ) (ε : ℝ) (e : String) (h : eigh A = Except.error e) :
    ensure_psdExc eigh A ε = Except.error e := by
  simp [ensure_psdExc, h]

/-- Witness for C7 (amended) at a concrete input: a failing oracle on a 1×1
matrix propagates its error message. -/
theorem ensure_psdExc_propagates_error_witness :
    ensure_psdExc (fun _ => Except.error "LinAlgError")
      (!![(1 : ℝ)] : Matrix (Fin 1) (Fin 1) ℝ) 1e-10 = Except.error "LinAlgError" :=
  ensure_psdExc_propagates_error _ _ _ _ rfl

/-- The sample covariance is the Gram matrix of the centered columns scaled by
`1 / sqrt (m - 1)`. -/
lemma sampleCov_gram [Fintype n] (m : ℕ) (X : Fin m → n → ℝ) (i j : n) :
    sampleCov m X i j =
      ∑ t, (centered m X t i / Real.sqrt ((m : ℝ) - 1)) *
        (centered m X t j / Real.sqrt ((m : ℝ) - 1)) := by
  rcases le_or_lt 0 ((m : ℝ) - 1) with hm | hm
  · have hs : Real.sqrt ((m : ℝ) - 1) * Real.sqrt ((m : ℝ) - 1) = (m : ℝ) - 1 :=
      Real.mul_self_sqrt hm
    rw [eq_comm]
    calc ∑ t, (centered m X t i / Real.sqrt ((m : ℝ) - 1)) *
          (centered m X t j / Real.sqrt ((m : ℝ) - 1))
        = ∑ t, (centered m X t i * centered m X t j) /
            (Real.sqrt ((m : ℝ) - 1) * Real.sqrt ((m : ℝ) - 1)) :=
          Finset.sum_congr rfl fun t _ => div_mul_div_comm _ _ _ _
      _ = (∑ t, centered m X t i * centered m X t j) /
            (Real.sqrt ((m : ℝ) - 1) * Real.sqrt ((m : ℝ) - 1)) :=
          (Finset.sum_div _ _ _).symm
      _ = sampleCov m X i j := by rw [hs]; rfl
  · have hm0 : m = 0 := by
      by_contra hne
      have h1 : (1 : ℝ) ≤ (m : ℝ) := Nat.one_le_cast.mpr (Nat.pos_of_ne_zero hne)
      linarith
    subst hm0
    simp [sampleCov]

/-- Both covariance estimators used by the diversification metrics are Gram
matrices of explicit vectors in observation space. -/
lemma divCov_gram [Fintype n] (m : ℕ) (X : Fin m → n → ℝ) (use_ewma : Bool) :
    ∃ g : n → Fin m → ℝ, ∀ i j, divCov m X use_ewma i j = ∑ t, g i t * g j t := by
  cases use_ewma
  · exact ⟨fun i t => centered m X t i / Real.sqrt ((m : ℝ) - 1),
      fun i j => by simpa [divCov] using sampleCov_gram m X i j⟩
  · unfold divCov calculate_ewma_covariance
    by_cases hm : m < 12
    · rw [if_pos rfl, if_pos hm]
      exact ⟨fun i t => centered m X t i / Real.sqrt ((m : ℝ) - 1),
        fun i j => sampleCov_gram m X i j⟩
    · rw [if_pos rfl, if_neg hm]
      exact ⟨fun i t => weightedReturns 0.94 m X t i, fun i j => rfl⟩

/-- The quadratic form of a Gram matrix is the squared Euclidean norm of the
weighted sum of its generating vectors. -/
lemma gram_quadform_eq_norm_sq [Fintype n] {m : ℕ} (C : Matrix n n ℝ)
    (g : n → Fin m → ℝ) (hC : ∀ i j, C i j = ∑ t, g i t * g j t) (w : n → ℝ) :
    w ⬝ᵥ (C *ᵥ w) =
      ‖∑ i, w i • (WithLp.equiv 2 (Fin m → ℝ)).symm (g i)‖ ^ 2 := by
  set u : n → EuclideanSpace ℝ (Fin m) :=
    fun i => (WithLp.equiv 2 (Fin m → ℝ)).symm (g i) with hu
  have hinner : ∀ i j, (inner (u i) (u j) : ℝ) = C i j := by
    intro i j
    rw [hC]
    rw [PiLp.inner_apply]
    refine Finset.sum_congr rfl fun t _ => ?_
    rw [RCLike.inner_apply]
    simp [hu, WithLp.equiv_symm_pi_apply]
  have hv : (inner (∑ i, w i • u i) (∑ i, w i • u i) : ℝ) =
      ∑ i, ∑ j, w i * (w j * C i j) := by
    rw [sum_inner]
    refine Finset.sum_congr rfl fun i _ => ?_
    rw [real_inner_smul_left, inner_sum, Finset.mul_sum]
    refine Finset.sum_congr rfl fun j _ => ?_
    rw [real_inner_smul_right, hinner i j]
  have hq : w ⬝ᵥ (C *ᵥ w) = ∑ i, ∑ j, w i * (w j * C i j) := by
    simp only [Matrix.dotProduct, Matrix.mulVec]
    refine Finset.sum_congr rfl fun i _ => ?_
    rw [Finset.mul_sum]
    refine Finset.sum_congr rfl fun j _ => ?_
    ring
  rw [hq, ← hv, real_inner_self_eq_norm_sq]

/-- Triangle inequality for Gram quadratic forms: with nonnegative weights the
portfolio volatility is at most the weighted average of the individual
volatilities. -/
lemma sqrt_gram_quadform_le [Fintype n] {m : ℕ} (C : Matrix n n ℝ)
    (g : n → Fin m → ℝ) (hC : ∀ i j, C i j = ∑ t, g i t * g j t) (w : n → ℝ)
    (hw : ∀ i, 0 ≤ w i) :
    Real.sqrt (w ⬝ᵥ (C *ᵥ w)) ≤ ∑ i, w i * Real.sqrt (C i i) := by
  set u : n → EuclideanSpace ℝ (Fin m) :=
    fun i => (WithLp.equiv 2 (Fin m → ℝ)).symm (g i) with hu
  have hinner : ∀ i, (inner (u i) (u i) : ℝ) = C i i := by
    intro i
    rw [hC]
    rw [PiLp.inner_apply]
    refine Finset.sum_congr rfl fun t _ => ?_
    rw [RCLike.inner_apply]
    simp [hu, WithLp.equiv_symm_pi_apply]
  have hnorm : ∀ i, ‖u i‖ = Real.sqrt (C i i) := by
    intro i
    have h1 : C i i = ‖u i‖ ^ 2 := by rw [← hinner i, real_inner_self_eq_norm_sq]
    rw [h1, Real.sqrt_sq (norm_nonneg _)]
  rw [gram_quadform_eq_norm_sq C g hC w, Real.sqrt_sq (norm_nonneg _)]
  calc ‖∑ i, w i • u i‖ ≤ ∑ i, ‖w i • u i‖ := norm_sum_le _ _
    _ = ∑ i, w i * Real.sqrt (C i i) := by
        refine Finset.sum_congr rfl fun i _ => ?_
        rw [norm_smul, Real.norm_eq_abs, abs_of_nonneg (hw i), hnorm i]

/-- Claim C8 (amended): the diversification ratio returned by
`compute_diversification_metrics` is ≥ 1 for every portfolio with
*nonnegative* weights of positive sum (whatever the pairwise correlations),
and is exactly 1 for every single-asset portfolio.  The original claim's
unrestricted quantification over weight vectors is false for long/short
portfolios (see `compute_diversification_metrics_ratio_lt_one_cex`). -/
theorem compute_diversification_metrics_div_ratio_bounds :
    (∀ (n : Type) [Fintype n] [LinearOrder n] (m : ℕ) (X : Fin m → n → ℝ)
        (w₀ : n → ℝ) (use_ewma : Bool),
        (∀ i, 0 ≤ w₀ i) → 0 < (∑ i, w₀ i) →
        1 ≤ (compute_diversification_metrics m X w₀ use_ewma).diversification_ratio) ∧
    (∀ (n : Type) [Fintype n] [LinearOrder n] (m : ℕ) (X : Fin m → n → ℝ)
        (w₀ : n → ℝ) (use_ewma : Bool),
        Fintype.card n = 1 →
        (compute_diversification_metrics m X w₀ use_ewma).diversification_ratio = 1) := by
  constructor
  · intro n _ _ m X w₀ flag hw hsum
    show 1 ≤ divRatio m X w₀ flag
    unfold divRatio
    by_cases hv : 0 < Real.sqrt (divPortfolioVar m X w₀ flag)
    · rw [if_pos hv, le_div_iff₀ hv, one_mul]
      obtain ⟨g, hg⟩ := divCov_gram m X flag
      exact sqrt_gram_quadform_le (divCov m X flag) g hg (normalizeSum w₀)
        (fun i => div_nonneg (hw i) hsum.le)
    · rw [if_neg hv]
  · intro n _ _ m X w₀ flag hcard
    obtain ⟨i0, hall⟩ := Fintype.card_eq_one_iff.mp hcard
    have huniv : (Finset.univ : Finset n) = {i0} := by
      ext x
      simp [hall x]
    show divRatio m X w₀ flag = 1
    unfold divRatio
    have hvar : divPortfolioVar m X w₀ flag =
        normalizeSum w₀ i0 * (divCov m X flag i0 i0 * normalizeSum w₀ i0) := by
      unfold divPortfolioVar
      simp only [Matrix.dotProduct, Matrix.mulVec]
      rw [huniv, Finset.sum_singleton, Finset.sum_singleton]
    have havg : weightedAvgVol m X w₀ flag =
        normalizeSum w₀ i0 * Real.sqrt (divCov m X flag i0 i0) := by
      unfold weightedAvgVol
      rw [huniv, Finset.sum_singleton]
    by_cases h0 : w₀ i0 = 0
    · have hn0 : normalizeSum w₀ i0 = 0 := by
        unfold normalizeSum
        rw [h0, zero_div]
      have : ¬ 0 < Real.sqrt (divPortfolioVar m X w₀ flag) := by
        rw [hvar, hn0]
        simp
      rw [if_neg this]
    · have hn1 : normalizeSum w₀ i0 = 1 := by
        unfold normalizeSum
        have hs : ∑ j, w₀ j = w₀ i0 := by rw [huniv, Finset.sum_singleton]
        rw [hs, div_self h0]
      rw [hvar, havg, hn1, one_mul, mul_one]
      by_cases hc : 0 < Real.sqrt (divCov m X flag i0 i0)
      · rw [if_pos hc, one_mul, div_self (ne_of_gt hc)]
      · rw [if_neg hc]

/-- Witness for C8 at concrete inputs: an equal-weight two-asset portfolio on
`cexReturns` has diversification ratio ≥ 1, and a one-asset portfolio has
diversification ratio exactly 1. -/
theorem compute_diversification_metrics_div_ratio_bounds_witness :
    ((∀ i : Fin 2, 0 ≤ (fun _ : Fin 2 => (1 : ℝ)) i) ∧
      0 < (∑ i : Fin 2, (fun _ : Fin 2 => (1 : ℝ)) i) ∧
      1 ≤ (compute_diversification_metrics 3 cexReturns (fun _ => 1)
            true).diversification_ratio) ∧
    (Fintype.card (Fin 1) = 1 ∧
      (compute_diversification_metrics 2 (fun t (_ : Fin 1) => if t = 0 then 0 else 1/5)
        (fun _ => 1) true).diversification_ratio = 1) := by
  refine ⟨⟨fun i => zero_le_one, by norm_num, ?_⟩, rfl, ?_⟩
  · exact compute_diversification_metrics_div_ratio_bounds.1 (Fin 2) 3 cexReturns
      (fun _ => 1) true (fun i => zero_le_one) (by norm_num)
  · exact compute_diversification_metrics_div_ratio_bounds.2 (Fin 1) 2
      (fun t (_ : Fin 1) => if t = 0 then 0 else 1/5) (fun _ => 1) true rfl

/-- Counterexample for C8 as stated: the long/short portfolio `(2, -1)` over
two assets of `cexReturns` with sample correlation 1/2 (not 1) has a
diversification ratio of `1/sqrt 3 < 1`. -/
theorem compute_diversification_metrics_ratio_lt_one_cex :
    sampleCorr 3 cexReturns 0 1 ≠ 1 ∧
      (compute_diversification_metrics 3 cexReturns cexWeights
        true).diversification_ratio < 1 := by
  have hC00 : sampleCov 3 cexReturns 0 0 = 1 := by
    norm_num [sampleCov, centered, colMean, cexReturns, Fin.sum_univ_three,
      (show (2 : Fin 3) ≠ 0 by decide), (show (2 : Fin 3) ≠ 1 by decide)]
  have hC01 : sampleCov 3 cexReturns 0 1 = 1/2 := by
    norm_num [sampleCov, centered, colMean, cexReturns, Fin.sum_univ_three,
      (show (2 : Fin 3) ≠ 0 by decide), (show (2 : Fin 3) ≠ 1 by decide)]
  have hC10 : sampleCov 3 cexReturns 1 0 = 1/2 := by
    norm_num [sampleCov, centered, colMean, cexReturns, Fin.sum_univ_three,
      (show (2 : Fin 3) ≠ 0 by decide), (show (2 : Fin 3) ≠ 1 by decide)]
  have hC11 : sampleCov 3 cexReturns 1 1 = 1 := by
    norm_num [sampleCov, centered, colMean, cexReturns, Fin.sum_univ_three,
      (show (2 : Fin 3) ≠ 0 by decide), (show (2 : Fin 3) ≠ 1 by decide)]
  have hdc : divCov 3 cexReturns true = sampleCov 3 cexReturns := by
    unfold divCov calculate_ewma_covariance
    rw [if_pos rfl, if_pos (by norm_num)]
  have hsw : (∑ i, cexWeights i) = 1 := by
    norm_num [cexWeights, Fin.sum_univ_two]
  have hn : ∀ i, normalizeSum cexWeights i = cexWeights i := by
    intro i
    unfold normalizeSum
    rw [hsw, div_one]
  constructor
  · unfold sampleCorr
    rw [hC00, hC01, hC11, Real.sqrt_one]
    norm_num
  · show divRatio 3 cexReturns cexWeights true < 1
    have hvar : divPortfolioVar 3 cexReturns cexWeights true = 3 := by
      unfold divPortfolioVar
      rw [hdc]
      simp only [Matrix.dotProduct, Matrix.mulVec, Fin.sum_univ_two, hn]
      rw [hC00, hC01, hC10, hC11]
      norm_num [cexWeights]
    have havg : weightedAvgVol 3 cexReturns cexWeights true = 1 := by
      unfold weightedAvgVol
      rw [Fin.sum_univ_two, hn, hn, hdc, hC00, hC11, Real.sqrt_one]
      norm_num [cexWeights]
    unfold divRatio
    rw [hvar, havg]
    have h3 : (0 : ℝ) < Real.sqrt 3 := Real.sqrt_pos.mpr (by norm_num)
    rw [if_pos h3, div_lt_one h3]
    rw [show (1 : ℝ) = Real.sqrt 1 from (Real.sqrt_one).symm]
    exact Real.sqrt_lt_sqrt (by norm_num) (by norm_num)

/-- Claim C6: `calculate_ewma_covariance` returns exactly the simple sample
covariance whenever the number of rows is strictly below `min_periods`,
whatever the decay value (risk_engine.py lines 402-404). -/
theorem ewma_cov_fallback_eq_sampleCov (m : ℕ) (X : Fin m → n → ℝ)
    (decay : ℝ) (min_periods : ℕ) (h : m < min_periods) :
    calculate_ewma_covariance m X decay min_periods = sampleCov m X := by
  unfold calculate_ewma_covariance
  exact if_pos h

/-- Witness for C6 at a concrete input: a 2-row, 1-asset table with the
default `min_periods = 12` falls back to the sample covariance. -/
theorem ewma_cov_fallback_eq_sampleCov_witness :
    2 < 12 ∧
      calculate_ewma_covariance 2 (fun t (_ : Fin 1) => if t = 0 then 0 else 1/5)
        (94/100) 12 =
      sampleCov 2 (fun t (_ : Fin 1) => if t = 0 then 0 else 1/5) :=
  ⟨by decide,
    ewma_cov_fallback_eq_sampleCov 2 (fun t (_ : Fin 1) => if t = 0 then 0 else 1/5)
      (94/100) 12 (by decide)⟩

/-- Claim C10: `ewma_shrinkage_cov` with fewer than 12 rows returns the plain
sample covariance, ignoring decay, shrinkage target and shrinkage intensity —
in particular also for `shrink_alpha = 1` (risk_engine.py lines 88-89). -/
theorem ewma_shrinkage_cov_fallback [Fintype n] [DecidableEq n] (m : ℕ) (X : Fin m → n → ℝ)
    (lambda_ : ℝ) (shrink_target : String) (shrink_alpha : ℝ) (h : m < 12) :
    ewma_shrinkage_cov m X lambda_ shrink_target shrink_alpha = sampleCov m X := by
  unfold ewma_shrinkage_cov
  exact if_pos h

/-- Witness for C10 at a concrete input: 2 rows, full shrinkage intensity
`shrink_alpha = 1` — the result is still the sample covariance. -/
theorem ewma_shrinkage_cov_fallback_witness :
    2 < 12 ∧
      ewma_shrinkage_cov 2 (fun t (_ : Fin 1) => if t = 0 then 0 else 1/5)
        (94/100) "diagonal" 1 =
      sampleCov 2 (fun t (_ : Fin 1) => if t = 0 then 0 else 1/5) :=
  ⟨by decide,
    ewma_shrinkage_cov_fallback 2 (fun t (_ : Fin 1) => if t = 0 then 0 else 1/5)
      (94/100) "diagonal" 1 (by decide)⟩

end

end RiskEngine

namespace OptimizationEngine

lemma npArgmax_lt_length {α : Type*} [LinearOrder α] (xs : List α) (h : xs ≠ []) :
    npArgmax xs < xs.length := by
  induction xs with
  | nil => exact absurd rfl h
  | cons x rest ih =>
    by_cases hr : rest = []
    · subst hr
      simp [npArgmax]
    · have hlt := ih hr
      have hq : rest[npArgmax rest]? = some (rest.get ⟨npArgmax rest, hlt⟩) := by
        rw [List.getElem?_eq_getElem hlt]
        simp [List.get_eq_getElem]
      by_cases hxy : x < rest.get ⟨npArgmax rest, hlt⟩
      · have hsel : npArgmax (x :: rest) = npArgmax rest + 1 := by
          simp only [npArgmax, hq]
          rw [if_pos hxy]
        rw [hsel]
        simpa using Nat.succ_lt_succ hlt
      · have hsel : npArgmax (x :: rest) = 0 := by
          simp only [npArgmax, hq]
          rw [if_neg hxy]
        rw [hsel]
        simp

lemma npArgmin_lt_length {α : Type*} [LinearOrder α] (xs : List α) (h : xs ≠ []) :
    npArgmin xs < xs.length := by
  induction xs with
  | nil => exact absurd rfl h
  | cons x rest ih =>
    by_cases hr : rest = []
    · subst hr
      simp [npArgmin]
    · have hlt := ih hr
      have hq : rest[npArgmin rest]? = some (rest.get ⟨npArgmin rest, hlt⟩) := by
        rw [List.getElem?_eq_getElem hlt]
        simp [List.get_eq_getElem]
      by_cases hxy : rest.get ⟨npArgmin rest, hlt⟩ < x
      · have hsel : npArgmin (x :: rest) = npArgmin rest + 1 := by
          simp only [npArgmin, hq]
          rw [if_pos hxy]
        rw [hsel]
        simpa using Nat.succ_lt_succ hlt
      · have hsel : npArgmin (x :: rest) = 0 := by
          simp only [npArgmin, hq]
          rw [if_neg hxy]
        rw [hsel]
        simp

lemma le_get_npArgmax {α : Type*} [LinearOrder α] (xs : List α) (i : ℕ)
    (hi : i < xs.length) (hj : npArgmax xs < xs.length) :
    xs.get ⟨i, hi⟩ ≤ xs.get ⟨npArgmax xs, hj⟩ := by
  induction xs generalizing i with
  | nil => simp at hi
  | cons x rest ih =>
    by_cases hr : rest = []
    · subst hr
      have hi0 : i = 0 := by
        simpa using Nat.lt_one_iff.mp (by simpa using hi)
      subst hi0
      have hsel : npArgmax [x] = 0 := by simp [npArgmax]
      simp [hsel]
    · have hlt := npArgmax_lt_length rest hr
      have hq : rest[npArgmax rest]? = some (rest.get ⟨npArgmax rest, hlt⟩) := by
        rw [List.getElem?_eq_getElem hlt]
        simp [List.get_eq_getElem]
      by_cases hxy : x < rest.get ⟨npArgmax rest, hlt⟩
      · have hsel : npArgmax (x :: rest) = npArgmax rest + 1 := by
          simp only [npArgmax, hq]
          rw [if_pos hxy]
        simp only [hsel] at hj ⊢
        cases i with
        | zero =>
          simpa using le_of_lt hxy
        | succ i' =>
          have hi' : i' < rest.length := by simpa using hi
          simpa using ih i' hi' hlt
      · have hsel : npArgmax (x :: rest) = 0 := by
          simp only [npArgmax, hq]
          rw [if_neg hxy]
        simp only [hsel] at hj ⊢
        cases i with
        | zero => simp
        | succ i' =>
          have hi' : i' < rest.length := by simpa using hi
          have h1 := ih i' hi' hlt
          have h2 : rest.get ⟨npArgmax rest, hlt⟩ ≤ x := not_lt.mp hxy
          simpa using le_trans h1 h2

lemma get_npArgmin_le {α : Type*} [LinearOrder α] (xs : List α) (i : ℕ)
    (hi : i < xs.length) (hj : npArgmin xs < xs.length) :
    xs.get ⟨npArgmin xs, hj⟩ ≤ xs.get ⟨i, hi⟩ := by
  induction xs generalizing i with
  | nil => simp at hi
  | cons x rest ih =>
    by_cases hr : rest = []
    · subst hr
      have hi0 : i = 0 := by
        simpa using Nat.lt_one_iff.mp (by simpa using hi)
      subst hi0
      have hsel : npArgmin [x] = 0 := by simp [npArgmin]
      simp [hsel]
    · have hlt := npArgmin_lt_length rest hr
      have hq : rest[npArgmin rest]? = some (rest.get ⟨npArgmin rest, hlt⟩) := by
        rw [List.getElem?_eq_getElem hlt]
        simp [List.get_eq_getElem]
      by_cases hxy : rest.get ⟨npArgmin rest, hlt⟩ < x
      · have hsel : npArgmin (x :: rest) = npArgmin rest + 1 := by
          simp only [npArgmin, hq]
          rw [if_pos hxy]
        simp only [hsel] at hj ⊢
        cases i with
        | zero =>
          simpa using le_of_lt hxy
        | succ i' =>
          have hi' : i' < rest.length := by simpa using hi
          simpa using ih i' hi' hlt
      · have hsel : npArgmin (x :: rest) = 0 := by
          simp only [npArgmin, hq]
          rw [if_neg hxy]
        simp only [hsel] at hj ⊢
        cases i with
        | zero => simp
        | succ i' =>
          have hi' : i' < rest.length := by simpa using hi
          have h1 := ih i' hi' hlt
          have h2 : x ≤ rest.get ⟨npArgmin rest, hlt⟩ := not_lt.mp hxy
          simpa using le_trans h2 h1

/-- Claim C9: on the empty frontier `find_optimal_portfolio` returns the
record containing only the error field `"Empty frontier"` — no index, return,
risk, sharpe or weights fields — and raises no exception. -/
theorem find_optimal_portfolio_empty {W : Type*} (target_return target_risk : Option ℚ)
    (risk_free_rate : ℚ) :
    find_optimal_portfolio ([] : List ℚ) ([] : List ℚ) ([] : List W)
      target_return target_risk risk_free_rate = FindResult.err "Empty frontier" := rfl

/-- Claim C5: on a non-empty frontier, `find_optimal_portfolio` returns the
`ok` record of its selected index, and the selected index is: with no targets,
a point of maximum Sharpe ratio `(ret − rf)/max(risk, 1e-10)`; with a
`target_return` strictly above every frontier return, a maximum-return point;
with a `target_return` met by some point, a minimum-risk point among points
whose return meets the target. -/
theorem find_optimal_portfolio_selection {W : Type*} (risks rets : List ℚ)
    (ws : List W) (rf t : ℚ) (hne : risks ≠ []) (hlen : rets.length = risks.length) :
    (∀ tR tRk : Option ℚ,
      find_optimal_portfolio risks rets ws tR tRk rf =
        FindResult.ok (selectIndex risks rets tR tRk rf)
          (rets.getD (selectIndex risks rets tR tRk rf) 0)
          (risks.getD (selectIndex risks rets tR tRk rf) 0)
          ((sharpeRatios risks rets rf).getD (selectIndex risks rets tR tRk rf) 0)
          ws[selectIndex risks rets tR tRk rf]?) ∧
    (selectIndex risks rets none none rf < risks.length ∧
      ∀ i, i < risks.length →
        (sharpeRatios risks rets rf).getD i 0 ≤
          (sharpeRatios risks rets rf).getD (selectIndex risks rets none none rf) 0) ∧
    ((∀ r ∈ rets, r < t) →
      selectIndex risks rets (some t) none rf < risks.length ∧
      ∀ i, i < risks.length →
        rets.getD i 0 ≤ rets.getD (selectIndex risks rets (some t) none rf) 0) ∧
    ((∃ r ∈ rets, t ≤ r) →
      selectIndex risks rets (some t) none rf < risks.length ∧
      t ≤ rets.getD (selectIndex risks rets (some t) none rf) 0 ∧
      ∀ i, i < risks.length → t ≤ rets.getD i 0 →
        risks.getD (selectIndex risks rets (some t) none rf) 0 ≤ risks.getD i 0) := by
  have hlen0 : risks.length ≠ 0 := fun h => hne (List.length_eq_zero.mp h)
  have hrne : rets ≠ [] := by
    intro h0
    apply hne
    apply List.length_eq_zero.mp
    rw [← hlen, h0]
    rfl
  refine ⟨?_, ?_, ?_, ?_⟩
  · intro tR tRk
    unfold find_optimal_portfolio
    rw [if_neg hlen0]
  · -- no targets: max Sharpe
    have hslen : (sharpeRatios risks rets rf).length = risks.length := by
      simp [sharpeRatios, hlen]
    have hsne : sharpeRatios risks rets rf ≠ [] := by
      intro h0
      have h1 := congrArg List.length h0
      rw [hslen] at h1
      exact hlen0 (by simpa using h1)
    have hsel : selectIndex risks rets none none rf =
        npArgmax (sharpeRatios risks rets rf) := rfl
    have hj := npArgmax_lt_length (sharpeRatios risks rets rf) hsne
    refine ⟨by rw [hsel, ← hslen]; exact hj, ?_⟩
    intro i hi
    have hi' : i < (sharpeRatios risks rets rf).length := by rw [hslen]; exact hi
    rw [hsel, List.getD_eq_getElem _ _ hi', List.getD_eq_getElem _ _ hj]
    simpa [List.get_eq_getElem] using
      le_get_npArgmax (sharpeRatios risks rets rf) i hi' hj
  · -- unreachable target return: max return
    intro hall
    have hany : (rets.map (fun r => decide (t ≤ r))).any (fun b => b) = false := by
      by_contra hcon
      have h1 : (rets.map (fun r => decide (t ≤ r))).any (fun b => b) = true := by
        revert hcon
        cases (rets.map (fun r => decide (t ≤ r))).any (fun b => b) <;> simp
      obtain ⟨b, hb, hbt⟩ := List.any_eq_true.mp h1
      obtain ⟨r, hr, hrb⟩ := List.mem_map.mp hb
      rw [← hrb] at hbt
      exact absurd (of_decide_eq_true hbt) (not_le.mpr (hall r hr))
    have hsel : selectIndex risks rets (some t) none rf = npArgmax rets := by
      show (if (rets.map (fun r => decide (t ≤ r))).any (fun b => b) = true then _ else
        npArgmax rets) = npArgmax rets
      rw [hany]
      simp
    have hj := npArgmax_lt_length rets hrne
    refine ⟨by rw [hsel, ← hlen]; exact hj, ?_⟩
    intro i hi
    have hi' : i < rets.length := by rw [hlen]; exact hi
    rw [hsel, List.getD_eq_getElem _ _ hi', List.getD_eq_getElem _ _ hj]
    simpa [List.get_eq_getElem] using le_get_npArgmax rets i hi' hj
  · -- reachable target return: min risk among qualifying points
    intro hex
    obtain ⟨r0, hr0mem, hr0⟩ := hex
    obtain ⟨k0, hk0, hk0v⟩ := List.mem_iff_getElem.mp hr0mem
    have hk0r : k0 < risks.length := by rw [← hlen]; exact hk0
    have hvallen : (rets.map (fun r => decide (t ≤ r))).length = risks.length := by
      simp [hlen]
    have hvlen : (List.zipWith (fun v r => if v then (r : WithTop ℚ) else ⊤)
        (rets.map (fun r => decide (t ≤ r))) risks).length = risks.length := by
      simp [hlen]
    have hk0val : k0 < (rets.map (fun r => decide (t ≤ r))).length := by
      rw [hvallen]; exact hk0r
    have hvalidk0 : (rets.map (fun r => decide (t ≤ r)))[k0] = true := by
      rw [List.getElem_map, hk0v]
      exact decide_eq_true hr0
    have hany : (rets.map (fun r => decide (t ≤ r))).any (fun b => b) = true :=
      List.any_eq_true.mpr ⟨_, List.getElem_mem hk0val, hvalidk0⟩
    have hsel : selectIndex risks rets (some t) none rf =
        npArgmin (List.zipWith (fun v r => if v then (r : WithTop ℚ) else ⊤)
          (rets.map (fun r => decide (t ≤ r))) risks) := by
      show (if (rets.map (fun r => decide (t ≤ r))).any (fun b => b) = true then
        npArgmin (List.zipWith (fun v r => if v then (r : WithTop ℚ) else ⊤)
          (rets.map (fun r => decide (t ≤ r))) risks) else _) = _
      rw [hany]
      simp
    have hvne : (List.zipWith (fun v r => if v then (r : WithTop ℚ) else ⊤)
        (rets.map (fun r => decide (t ≤ r))) risks) ≠ [] := by
      intro h0
      have h1 := congrArg List.length h0
      rw [hvlen] at h1
      exact hlen0 (by simpa using h1)
    have hj := npArgmin_lt_length _ hvne
    have hjr : npArgmin (List.zipWith (fun v r => if v then (r : WithTop ℚ) else ⊤)
        (rets.map (fun r => decide (t ≤ r))) risks) < risks.length := by
      rw [← hvlen]; exact hj
    -- pointwise description of the masked risk array
    have hvk : ∀ (k : ℕ) (hk : k < risks.length),
        (List.zipWith (fun v r => if v then (r : WithTop ℚ) else ⊤)
          (rets.map (fun r => decide (t ≤ r))) risks).getD k ⊤ =
          if t ≤ rets.getD k 0 then ((risks.getD k 0 : ℚ) : WithTop ℚ) else ⊤ := by
      intro k hk
      have hkz : k < (List.zipWith (fun v r => if v then (r : WithTop ℚ) else ⊤)
          (rets.map (fun r => decide (t ≤ r))) risks).length := by rw [hvlen]; exact hk
      have hkr : k < rets.length := by rw [hlen]; exact hk
      rw [List.getD_eq_getElem _ _ hkz, List.getElem_zipWith, List.getElem_map,
        List.getD_eq_getElem rets 0 hkr, List.getD_eq_getElem risks 0 hk]
      by_cases hcase : t ≤ rets[k]
      · rw [if_pos hcase, decide_eq_true hcase]
        simp
      · rw [if_neg hcase, decide_eq_false hcase]
        simp
    have hmin : ∀ k, k < risks.length →
        (List.zipWith (fun v r => if v then (r : WithTop ℚ) else ⊤)
          (rets.map (fun r => decide (t ≤ r))) risks).getD
            (npArgmin (List.zipWith (fun v r => if v then (r : WithTop ℚ) else ⊤)
              (rets.map (fun r => decide (t ≤ r))) risks)) ⊤ ≤
        (List.zipWith (fun v r => if v then (r : WithTop ℚ) else ⊤)
          (rets.map (fun r => decide (t ≤ r))) risks).getD k ⊤ := by
      intro k hk
      have hkz : k < (List.zipWith (fun v r => if v then (r : WithTop ℚ) else ⊤)
          (rets.map (fun r => decide (t ≤ r))) risks).length := by rw [hvlen]; exact hk
      rw [List.getD_eq_getElem _ _ hj, List.getD_eq_getElem _ _ hkz]
      simpa [List.get_eq_getElem] using get_npArgmin_le _ k hkz hj
    have hk0le : t ≤ rets.getD k0 0 := by
      rw [List.getD_eq_getElem rets 0 hk0, hk0v]
      exact hr0
    have h1 := hmin k0 hk0r
    rw [hvk k0 hk0r, if_pos hk0le] at h1
    have hne_top : (List.zipWith (fun v r => if v then (r : WithTop ℚ) else ⊤)
        (rets.map (fun r => decide (t ≤ r))) risks).getD
          (npArgmin (List.zipWith (fun v r => if v then (r : WithTop ℚ) else ⊤)
            (rets.map (fun r => decide (t ≤ r))) risks)) ⊤ ≠ ⊤ := by
      intro h0
      rw [h0] at h1
      exact WithTop.coe_ne_top (top_le_iff.mp h1)
    have hto : t ≤ rets.getD (npArgmin (List.zipWith
        (fun v r => if v then (r : WithTop ℚ) else ⊤)
        (rets.map (fun r => decide (t ≤ r))) risks)) 0 := by
      by_contra hcon
      rw [hvk _ hjr, if_neg hcon] at hne_top
      exact hne_top rfl
    have heq : (List.zipWith (fun v r => if v then (r : WithTop ℚ) else ⊤)
        (rets.map (fun r => decide (t ≤ r))) risks).getD
          (npArgmin (List.zipWith (fun v r => if v then (r : WithTop ℚ) else ⊤)
            (rets.map (fun r => decide (t ≤ r))) risks)) ⊤ =
        ((risks.getD (npArgmin (List.zipWith
          (fun v r => if v then (r : WithTop ℚ) else ⊤)
          (rets.map (fun r => decide (t ≤ r))) risks)) 0 : ℚ) : WithTop ℚ) := by
      rw [hvk _ hjr, if_pos hto]
    refine ⟨by rw [hsel]; exact hjr, by rw [hsel]; exact hto, ?_⟩
    intro i hi hti
    have h2 := hmin i hi
    rw [heq, hvk i hi, if_pos hti] at h2
    rw [hsel]
    exact_mod_cast h2

/-- Witness for C5 at a concrete two-point frontier
(risks `[1, 3]`, returns `[1, 2]`, risk-free rate 0): the no-target and
unreachable-target (3) selections return in-range indices, the
reachable-target (2) selection returns a point meeting the target, and the
result is the `ok` record of the selected index. -/
theorem find_optimal_portfolio_selection_witness :
    selectIndex [(1 : ℚ), 3] [(1 : ℚ), 2] none none 0 <
      ([(1 : ℚ), 3] : List ℚ).length ∧
    selectIndex [(1 : ℚ), 3] [(1 : ℚ), 2] (some 3) none 0 <
      ([(1 : ℚ), 3] : List ℚ).length ∧
    (2 : ℚ) ≤ ([(1 : ℚ), 2] : List ℚ).getD
      (selectIndex [(1 : ℚ), 3] [(1 : ℚ), 2] (some 2) none 0) 0 ∧
    find_optimal_portfolio [(1 : ℚ), 3] [(1 : ℚ), 2] ([10, 20] : List ℕ)
        none none 0 =
      FindResult.ok (selectIndex [(1 : ℚ), 3] [(1 : ℚ), 2] none none 0)
        (([(1 : ℚ), 2] : List ℚ).getD
          (selectIndex [(1 : ℚ), 3] [(1 : ℚ), 2] none none 0) 0)
        (([(1 : ℚ), 3] : List ℚ).getD
          (selectIndex [(1 : ℚ), 3] [(1 : ℚ), 2] none none 0) 0)
        ((sharpeRatios [(1 : ℚ), 3] [(1 : ℚ), 2] 0).getD
          (selectIndex [(1 : ℚ), 3] [(1 : ℚ), 2] none none 0) 0)
        ([10, 20] : List ℕ)[selectIndex [(1 : ℚ), 3] [(1 : ℚ), 2] none none 0]? := by
  refine ⟨?_, ?_, ?_, ?_⟩
  · exact (find_optimal_portfolio_selection [(1 : ℚ), 3] [(1 : ℚ), 2]
      ([10, 20] : List ℕ) 0 3 (by decide) rfl).2.1.1
  · exact ((find_optimal_portfolio_selection [(1 : ℚ), 3] [(1 : ℚ), 2]
      ([10, 20] : List ℕ) 0 3 (by decide) rfl).2.2.1 (by decide)).1
  · exact ((find_optimal_portfolio_selection [(1 : ℚ), 3] [(1 : ℚ), 2]
      ([10, 20] : List ℕ) 0 2 (by decide) rfl).2.2.2 (by decide)).2.1
  · exact (find_optimal_portfolio_selection [(1 : ℚ), 3] [(1 : ℚ), 2]
      ([10, 20] : List ℕ) 0 3 (by decide) rfl).1 none none

noncomputable section

open RiskEngine Matrix

/-- Counterexample for C4 as stated: with `custom_assets=["A"]`, a CMA table
whose mode universe has two valid assets, and the default unconstrained mode,
`compute_efficient_frontier` does not return an error result — the
one-element custom list is silently ignored (`len(custom_assets) >= 2` fails),
the mode universe is used, and the success record carries no error field. -/
theorem compute_efficient_frontier_one_custom_cex :
    (compute_efficient_frontier failMinimize cexCMA false cexCorr "unconstrained"
      "std" (some ["A"]) 30 none).errorField = none := by
  have h1 : validRow (CMARow.mk "ASSET1" (some 0.08) (some 0.16) none none) = true := by
    simp [validRow]
    norm_num
  have h2 : validRow (CMARow.mk "ASSET2" (some 0.04) (some 0.05) none none) = true := by
    simp [validRow]
    norm_num
  have hbu : build_universe "unconstrained" cexCMA = cexCMA := by
    unfold build_universe
    rw [if_neg (by decide), if_neg (by decide)]
    simp [cexCMA, List.filter, h1, h2]
  have hfu : frontier_universe "unconstrained" (some ["A"]) cexCMA = cexCMA := by
    simp only [frontier_universe]
    rw [if_neg (by decide)]
    exact hbu
  have hlen : ¬ (frontier_universe "unconstrained" (some ["A"]) cexCMA).length < 2 := by
    rw [hfu]
    decide
  simp only [compute_efficient_frontier]
  rw [if_neg hlen]
  rfl

/-- Claim C4 (amended): a custom asset list naming fewer than two assets is
ignored — `compute_efficient_frontier` behaves exactly as with no custom list,
using the mode universe — and the structured error result with empty risk and
return series is produced exactly when that universe has fewer than two valid
assets. -/
theorem compute_efficient_frontier_short_custom (minimize : MinimizeOracle)
    (cma : List CMARow) (has_ra : Bool) (corr : String → String → Option ℝ)
    (mode caps : String) (cas : List String) (n_points : ℕ)
    (lambdas : Option (List ℝ)) (hcas : cas.length < 2) :
    (compute_efficient_frontier minimize cma has_ra corr mode caps (some cas)
        n_points lambdas =
      compute_efficient_frontier minimize cma has_ra corr mode caps none
        n_points lambdas) ∧
    ((build_universe mode cma).length < 2 →
      compute_efficient_frontier minimize cma has_ra corr mode caps (some cas)
          n_points lambdas =
        FrontierOutcome.err [] [] [] [] "Need at least 2 assets") := by
  have hfu : frontier_universe mode (some cas) cma = build_universe mode cma := by
    simp only [frontier_universe]
    rw [if_neg (by omega)]
  have hfu2 : frontier_universe mode none cma = build_universe mode cma := rfl
  constructor
  · unfold compute_efficient_frontier
    rw [hfu.trans hfu2.symm]
  · intro hlt
    have hcond : (frontier_universe mode (some cas) cma).length < 2 := by
      rw [hfu]
      exact hlt
    simp only [compute_efficient_frontier]
    rw [if_pos hcond]

/-- Witness for C4 (amended) at concrete inputs: with the empty CMA table the
one-element custom list is ignored and the structured error result is
returned. -/
theorem compute_efficient_frontier_short_custom_witness :
    (["A"] : List String).length < 2 ∧
    (build_universe "unconstrained" []).length < 2 ∧
    (compute_efficient_frontier failMinimize [] false cexCorr "unconstrained" "std"
        (some ["A"]) 30 none =
      compute_efficient_frontier failMinimize [] false cexCorr "unconstrained" "std"
        none 30 none) ∧
    compute_efficient_frontier failMinimize [] false cexCorr "unconstrained" "std"
        (some ["A"]) 30 none =
      FrontierOutcome.err [] [] [] [] "Need at least 2 assets" := by
  refine ⟨by decide, by decide, ?_, ?_⟩
  · exact (compute_efficient_frontier_short_custom failMinimize [] false cexCorr
      "unconstrained" "std" ["A"] 30 none (by decide)).1
  · exact (compute_efficient_frontier_short_custom failMinimize [] false cexCorr
      "unconstrained" "std" ["A"] 30 none (by decide)).2 (by decide)

end

end OptimizationEngine
